import Mathlib

/-!
Verification of the one-step sulfonamide enumeration pipeline.

The development shallowly embeds the three Python tools of the repository:

* `scripts/one-step-sulfonamide-enum96.py` — combinatorial enumerator and
  96-well plate assignment;
* `tools/merge_authoritative_plate_map.py` — reconciliation merger;
* `tools/opentrons_extract_destination_map.py` — protocol static analyzer.

RDKit is the external Reaction Oracle of the spec: its calls
(`RunReactants`, `SanitizeMol`/`MolToSmiles`, `CombineMols`) are abstracted
as parameters of the embedding, exactly at the interface the spec gives them.
-/

namespace SulfEnum

/-! ## Enumerator: `scripts/one-step-sulfonamide-enum96.py` -/

/-- A reagent row, as produced by `load_reagents_csv` (dataclass `Reagent`). -/
structure Reagent where
  smiles : String
  rid : String
  name : String
deriving DecidableEq, Repr, Inhabited

/-- One candidate product molecule returned by the oracle's `RunReactants`:
`sanitized = some smi` models `SanitizeMol` succeeding, followed by
`MolToSmiles` giving `smi`; `sanitized = none` models `SanitizeMol` raising. -/
structure Candidate where
  sanitized : Option String
deriving DecidableEq, Repr, Inhabited

/-- Embedding of `first_sanitized_product_smiles`.  The argument is the result
of `rxn.RunReactants(reactants)`: `none` if the call raised (caught, returns
`None`), otherwise the list of candidate product sets.  The Python code scans
the sets in order and inside each set in order, returning the first candidate
that sanitizes. -/
def first_sanitized_product_smiles (runOut : Option (List (List Candidate))) :
    Option String :=
  match runOut with
  | none => none
  | some outSets => (outSets.flatMap id).findSome? Candidate.sanitized

/-- Python truthiness of an `Optional[str]`: `None` and the empty string are
falsy (the source tests `if smi:`). -/
def pyTruthy : Option String → Bool
  | none => false
  | some s => !s.isEmpty

/-- Embedding of `best_effort_product`.  `runOut` is the oracle's
`RunReactants` outcome for the pair, `combineSmiles` is
`MolToSmiles(CombineMols(s_mol, a_mol))` — total, per the oracle interface
(`combineDisconnected` always succeeds).  Returns `(product_smiles, status)`. -/
def best_effort_product (runOut : Option (List (List Candidate)))
    (combineSmiles : String) : String × String :=
  match first_sanitized_product_smiles runOut with
  | some smi =>
      if smi.isEmpty then (combineSmiles, "FALLBACK_COMBINEMOLS")
      else (smi, "OK_REACTION")
  | none => (combineSmiles, "FALLBACK_COMBINEMOLS")

/-- One yielded tuple of `enumerate_one_step`:
`(ProductID, sulfonyl_reagent, amine_reagent, product_smiles, status)`. -/
abbrev EnumRow := Nat × Reagent × Reagent × String × String

/-- Inner loop of `enumerate_one_step` over the amine list, carrying the
running `pid` counter.  The substructure checks in the source
(`HasSubstructMatch` guards) are `pass` statements with no effect and are
omitted. -/
def enumAmines (react : Reagent → Reagent → Option (List (List Candidate)))
    (combine : Reagent → Reagent → String) (s : Reagent) (pid : Nat) :
    List Reagent → List EnumRow
  | [] => []
  | a :: rest =>
      let pr := best_effort_product (react s a) (combine s a)
      (pid, s, a, pr.1, pr.2) :: enumAmines react combine s (pid + 1) rest

/-- Outer loop of `enumerate_one_step` over the sulfonyl list. -/
def enumSulfonyls (react : Reagent → Reagent → Option (List (List Candidate)))
    (combine : Reagent → Reagent → String) (amines : List Reagent) (pid : Nat) :
    List Reagent → List EnumRow
  | [] => []
  | s :: rest =>
      enumAmines react combine s pid amines ++
        enumSulfonyls react combine amines (pid + amines.length) rest

/-- Embedding of `enumerate_one_step`: outer loop over sulfonyls, inner loop
over amines, `pid` starting at 0 and incremented after every pair. -/
def enumerate_one_step (react : Reagent → Reagent → Option (List (List Candidate)))
    (combine : Reagent → Reagent → String)
    (sulfonyls amines : List Reagent) : List EnumRow :=
  enumSulfonyls react combine amines 0 sulfonyls

section EnumLemmas

variable (react : Reagent → Reagent → Option (List (List Candidate)))
variable (combine : Reagent → Reagent → String)

theorem enumAmines_length (s : Reagent) (pid : Nat) (amines : List Reagent) :
    (enumAmines react combine s pid amines).length = amines.length := by
  induction amines generalizing pid with
  | nil => rfl
  | cons a rest ih => simp [enumAmines, ih]

theorem enumSulfonyls_length (amines : List Reagent) (pid : Nat)
    (sulfonyls : List Reagent) :
    (enumSulfonyls react combine amines pid sulfonyls).length =
      sulfonyls.length * amines.length := by
  induction sulfonyls generalizing pid with
  | nil => simp [enumSulfonyls]
  | cons s rest ih =>
      simp [enumSulfonyls, enumAmines_length, ih, Nat.succ_mul, Nat.add_comm]

theorem enumerate_one_step_length (sulfonyls amines : List Reagent) :
    (enumerate_one_step react combine sulfonyls amines).length =
      sulfonyls.length * amines.length :=
  enumSulfonyls_length react combine amines 0 sulfonyls

theorem enumAmines_map_fst (s : Reagent) (pid : Nat) (amines : List Reagent) :
    (enumAmines react combine s pid amines).map (fun t => t.1) =
      List.range' pid amines.length := by
  induction amines generalizing pid with
  | nil => rfl
  | cons a rest ih => simp [enumAmines, List.range', ih]

theorem enumSulfonyls_map_fst (amines : List Reagent) (pid : Nat)
    (sulfonyls : List Reagent) :
    (enumSulfonyls react combine amines pid sulfonyls).map (fun t => t.1) =
      List.range' pid (sulfonyls.length * amines.length) := by
  induction sulfonyls generalizing pid with
  | nil => simp [enumSulfonyls]
  | cons s rest ih =>
      have happ := List.range'_append pid amines.length
        (rest.length * amines.length) 1
      simp only [one_mul] at happ
      simp only [enumSulfonyls, List.map_append, enumAmines_map_fst, ih,
        Nat.succ_mul]
      rw [happ]
      congr 1
      simp [Nat.succ_mul, Nat.add_comm]

theorem enumAmines_getD (s : Reagent) (pid : Nat) (amines : List Reagent)
    (j : Nat) (hj : j < amines.length) :
    (enumAmines react combine s pid amines).getD j default =
      (pid + j, s, amines.getD j default,
        best_effort_product (react s (amines.getD j default))
          (combine s (amines.getD j default))) := by
  induction amines generalizing pid j with
  | nil => exact absurd hj (by simp)
  | cons a rest ih =>
      cases j with
      | zero => simp [enumAmines]
      | succ j =>
          have hj' : j < rest.length := by simpa using hj
          simp only [enumAmines, List.getD_cons_succ]
          rw [ih (pid + 1) j hj']
          congr 1
          omega

theorem enumSulfonyls_getD (amines : List Reagent) (pid : Nat)
    (sulfonyls : List Reagent) (i j : Nat)
    (hi : i < sulfonyls.length) (hj : j < amines.length) :
    (enumSulfonyls react combine amines pid sulfonyls).getD
        (i * amines.length + j) default =
      (pid + (i * amines.length + j), sulfonyls.getD i default,
        amines.getD j default,
        best_effort_product
          (react (sulfonyls.getD i default) (amines.getD j default))
          (combine (sulfonyls.getD i default) (amines.getD j default))) := by
  induction sulfonyls generalizing pid i with
  | nil => exact absurd hi (by simp)
  | cons s rest ih =>
      cases i with
      | zero =>
          simp only [Nat.zero_mul, Nat.zero_add, List.getD_cons_zero]
          have hlt : j < (enumAmines react combine s pid amines).length := by
            rw [enumAmines_length]; exact hj
          unfold enumSulfonyls
          rw [List.getD_eq_getElem?_getD, List.getElem?_append_left hlt,
            ← List.getD_eq_getElem?_getD]
          exact enumAmines_getD react combine s pid amines j hj
      | succ i =>
          have hi' : i < rest.length := by simpa using hi
          have hidx : (i + 1) * amines.length + j =
              (enumAmines react combine s pid amines).length +
                (i * amines.length + j) := by
            rw [enumAmines_length]; ring
          unfold enumSulfonyls
          rw [List.getD_eq_getElem?_getD, hidx, List.getElem?_append_right
            (by omega), Nat.add_sub_cancel_left, ← List.getD_eq_getElem?_getD]
          simp only [List.getD_cons_succ]
          rw [ih (pid + amines.length) i hi']
          simp only [enumAmines_length]
          congr 1
          ring

end EnumLemmas

/-! ## Plate utilities of `scripts/one-step-sulfonamide-enum96.py` -/

/-- Embedding of `row_labels_96`: the row letters A..H. -/
def row_labels_96 : List Char := ['A', 'B', 'C', 'D', 'E', 'F', 'G', 'H']

/-- One record appended by `plate_assign_96`
(the Python dict with keys Plate, Row, Col, Well). -/
structure PlateRec where
  plate : Nat
  row : Char
  col : Nat
  well : String
deriving DecidableEq, Repr, Inhabited

/-- Loop body of `plate_assign_96`: processes indices `i, i + 1, ...` for
`fuel` iterations, carrying the mutable `plate` counter, which the source
increments after every `n_rows * n_cols` assignments. -/
def plate_assign_96_go (plate i : Nat) : Nat → List PlateRec
  | 0 => []
  | fuel + 1 =>
      let nRows := row_labels_96.length
      let cap := nRows * 12
      let idx := i % cap
      let col := idx / nRows + 1
      let r := idx % nRows
      let row := row_labels_96.getD r 'A'
      let plate' := if (i + 1) % cap = 0 then plate + 1 else plate
      ⟨plate, row, col, String.mk [row] ++ toString col⟩ ::
        plate_assign_96_go plate' (i + 1) fuel

/-- Embedding of `plate_assign_96 n`: the loop starts at index 0 with
`plate = 1`. -/
def plate_assign_96 (n : Nat) : List PlateRec := plate_assign_96_go 1 0 n

/-- Modelled from the spec: the geometry-parameterized
`WellIndexer.coordinateOf(index, rows, cols)` of spec section 4.1; the source
contains only its 8-row, 12-column instance `plate_assign_96`.  `rowIdx` is
the 0-based row (0 = A). -/
structure Coordinate where
  plate : Nat
  rowIdx : Nat
  col : Nat
deriving DecidableEq, Repr, Inhabited

/-- Modelled from the spec: `coordinateOf` as the pure arithmetic of spec
section 4.1 (column-major fill, plate advancing every `rows * cols`
indices). -/
def coordinateOf (index rows cols : Nat) : Coordinate :=
  ⟨index / (rows * cols) + 1, index % (rows * cols) % rows,
    index % (rows * cols) / rows + 1⟩

/-- Modelled from the spec: the inverse operation `indexOf(coordinate)` of
spec section 4.1; the source provides no inverse. -/
def indexOf (c : Coordinate) (rows cols : Nat) : Nat :=
  (c.plate - 1) * (rows * cols) + (c.col - 1) * rows + c.rowIdx

/-- The record the spec arithmetic predicts at index `i` of the 96-well
assignment. -/
def plateRecAt (i : Nat) : PlateRec :=
  let c := coordinateOf i 8 12
  let row := row_labels_96.getD c.rowIdx 'A'
  ⟨c.plate, row, c.col, String.mk [row] ++ toString c.col⟩

theorem plate_assign_96_go_length (fuel : Nat) :
    ∀ plate i, (plate_assign_96_go plate i fuel).length = fuel := by
  induction fuel with
  | zero => intro plate i; rfl
  | succ fuel ih => intro plate i; simp [plate_assign_96_go, ih]

theorem row_labels_96_length : row_labels_96.length = 8 := rfl

theorem plate_assign_96_go_getD (fuel : Nat) :
    ∀ i j, j < fuel →
      (plate_assign_96_go (i / 96 + 1) i fuel).getD j default =
        plateRecAt (i + j) := by
  induction fuel with
  | zero => intro i j h; exact absurd h (by omega)
  | succ fuel ih =>
      intro i j hj
      cases j with
      | zero =>
          simp only [plate_assign_96_go, row_labels_96_length,
            List.getD_cons_zero, plateRecAt, coordinateOf, Nat.add_zero]
      | succ j =>
          have hplate : (if (i + 1) % (row_labels_96.length * 12) = 0
              then i / 96 + 1 + 1 else i / 96 + 1) = (i + 1) / 96 + 1 := by
            rw [row_labels_96_length]
            norm_num
            by_cases hdvd : 96 ∣ (i + 1)
            · rw [if_pos (by omega), Nat.succ_div_of_dvd hdvd]
            · rw [if_neg (by omega), Nat.succ_div_of_not_dvd hdvd]
          simp only [plate_assign_96_go, List.getD_cons_succ]
          rw [hplate]
          have := ih (i + 1) j (by omega)
          rw [this]
          congr 1
          omega

theorem plate_assign_96_getD (n i : Nat) (h : i < n) :
    (plate_assign_96 n).getD i default = plateRecAt i := by
  have := plate_assign_96_go_getD n 0 i h
  simpa [plate_assign_96] using this

theorem coordinateOf_reset (k : Nat) : coordinateOf (k * 96) 8 12 = ⟨k + 1, 0, 1⟩ := by
  simp only [coordinateOf]
  norm_num

theorem indexOf_coordinateOf (rows cols i : Nat) :
    indexOf (coordinateOf i rows cols) rows cols = i := by
  simp only [indexOf, coordinateOf, Nat.add_sub_cancel]
  rw [Nat.add_assoc,
    Nat.mul_comm (i / (rows * cols)) (rows * cols),
    Nat.mul_comm (i % (rows * cols) / rows) rows,
    Nat.div_add_mod, Nat.div_add_mod]

theorem coordinateOf_injective (rows cols : Nat) :
    Function.Injective (fun i => coordinateOf i rows cols) := by
  intro a b hab
  have h := congrArg (fun c => indexOf c rows cols) hab
  simpa only [indexOf_coordinateOf] using h

theorem coordinateOf_plate_le (rows cols k i : Nat)
    (hik : i < k * (rows * cols)) : (coordinateOf i rows cols).plate ≤ k := by
  simp only [coordinateOf]
  have hik' : i < (rows * cols) * k := by
    rw [Nat.mul_comm (rows * cols) k]; exact hik
  have : i / (rows * cols) < k := Nat.div_lt_of_lt_mul hik'
  omega

theorem coordinateOf_mem_box (rows cols i : Nat) (hr : 0 < rows)
    (hc : 0 < cols) :
    1 ≤ (coordinateOf i rows cols).plate ∧
      (coordinateOf i rows cols).rowIdx < rows ∧
      1 ≤ (coordinateOf i rows cols).col ∧
      (coordinateOf i rows cols).col ≤ cols := by
  have hcap : 0 < rows * cols := Nat.mul_pos hr hc
  refine ⟨by simp [coordinateOf], Nat.mod_lt _ hr, by simp [coordinateOf], ?_⟩
  simp only [coordinateOf]
  have hmod : i % (rows * cols) < rows * cols := Nat.mod_lt _ hcap
  have : i % (rows * cols) / rows < cols :=
    Nat.div_lt_of_lt_mul (by omega)
  omega

theorem coordinateOf_indexOf (rows cols p r c : Nat) (hp : 1 ≤ p)
    (hr : r < rows) (hc1 : 1 ≤ c) (hc2 : c ≤ cols) :
    coordinateOf (indexOf ⟨p, r, c⟩ rows cols) rows cols = ⟨p, r, c⟩ ∧
      indexOf ⟨p, r, c⟩ rows cols < p * (rows * cols) := by
  have hrows : 0 < rows := by omega
  have hinner : (c - 1) * rows + r < rows * cols := by
    have h1 : (c - 1) * rows + r < (c - 1) * rows + rows := by omega
    have h2 : (c - 1) * rows + rows = c * rows := by
      have : c - 1 + 1 = c := by omega
      calc (c - 1) * rows + rows = (c - 1 + 1) * rows := by ring
        _ = c * rows := by rw [this]
    have h3 : c * rows ≤ cols * rows := Nat.mul_le_mul_right rows hc2
    calc (c - 1) * rows + r < c * rows := by omega
      _ ≤ cols * rows := h3
      _ = rows * cols := Nat.mul_comm _ _
  have hidx : indexOf ⟨p, r, c⟩ rows cols =
      ((c - 1) * rows + r) + (p - 1) * (rows * cols) := by
    simp only [indexOf]; ring
  constructor
  · have hdiv : indexOf ⟨p, r, c⟩ rows cols / (rows * cols) = p - 1 := by
      rw [hidx, Nat.add_mul_div_right _ _ (by omega), Nat.div_eq_of_lt hinner,
        Nat.zero_add]
    have hmod : indexOf ⟨p, r, c⟩ rows cols % (rows * cols) =
        (c - 1) * rows + r := by
      rw [hidx, Nat.add_mul_mod_self_right, Nat.mod_eq_of_lt hinner]
    simp only [coordinateOf, hdiv, hmod]
    have hmodr : ((c - 1) * rows + r) % rows = r := by
      rw [Nat.mul_comm, Nat.mul_add_mod, Nat.mod_eq_of_lt hr]
    have hdivr : ((c - 1) * rows + r) / rows = c - 1 := by
      rw [Nat.mul_comm, Nat.mul_add_div hrows, Nat.div_eq_of_lt hr,
        Nat.add_zero]
    rw [hmodr, hdivr]
    congr 1 <;> omega
  · rw [hidx]
    have : (p - 1) * (rows * cols) + (rows * cols) = p * (rows * cols) := by
      have hp1 : p - 1 + 1 = p := by omega
      calc (p - 1) * (rows * cols) + rows * cols
          = (p - 1 + 1) * (rows * cols) := by ring
        _ = p * (rows * cols) := by rw [hp1]
    omega

/-! ## Reagent loading: `load_reagents_csv` of the enumerator script -/

/-- Zero-padded decimal rendering, Python `f"{n:0wd}"` for a nonnegative
`n`. -/
def pad0 (w n : Nat) : String :=
  String.mk (List.replicate (w - (Nat.repr n).length) '0') ++ Nat.repr n

/-- One CSV row after `pd.read_csv`: the outcome of `Chem.MolFromSmiles` on
its SMILES cell (canonical SMILES on success, `none` on failure), and the
already-stripped contents of the id and name cells when those columns
exist. -/
structure CsvRow where
  parsedSmiles : Option String
  idCell : String
  nameCell : String
deriving DecidableEq, Repr, Inhabited

/-- Row loop of `load_reagents_csv`, carrying the DataFrame row index `i`
(which advances over skipped rows too).  `useId` is true when an ID column
was selected, `useName` when a name column exists; otherwise the source
auto-generates `f"{default_prefix}{i:06d}"` and falls back to `rid` for the
name. -/
def load_reagents_go (useId useName : Bool) (pref : String) :
    Nat → List CsvRow → List Reagent
  | _, [] => []
  | i, r :: rest =>
      match r.parsedSmiles with
      | none => load_reagents_go useId useName pref (i + 1) rest
      | some smi =>
          let rid := if useId then r.idCell else pref ++ pad0 6 i
          let nm := if useName then r.nameCell else rid
          ⟨smi, rid, nm⟩ :: load_reagents_go useId useName pref (i + 1) rest

/-- Embedding of `load_reagents_csv` (row loop; the column-selection branches
are the `useId` and `useName` flags). -/
def load_reagents_csv (useId useName : Bool) (pref : String)
    (rows : List CsvRow) : List Reagent :=
  load_reagents_go useId useName pref 0 rows

/-! ## Merger: `tools/merge_authoritative_plate_map.py` -/

/-- Embedding of `s_id`: render a sulfonyl number as `S_{n:03d}`. -/
def s_id (n : Nat) : String := "S_" ++ pad0 3 n

/-- Embedding of `amine_id`: render an amine number as `Amine_ID_{n:03d}`. -/
def amine_id (n : Nat) : String := "Amine_ID_" ++ pad0 3 n

/-- One row of the destination-map CSV as read by the merger, before the
`astype(int)` normalization: a reagent-number cell holds `some n` when it is
convertible to an integer, `none` when it is empty or non-numeric (pandas
`astype(int)` raises there). -/
structure DestRowRaw where
  well : String
  sulfCell : Option Nat
  amineCell : Option Nat
  sulfSrc : String
  amineSrc : String
deriving DecidableEq, Repr, Inhabited

/-- A destination-map row after the merger's normalization, with the derived
join keys `S_ID` and `Amine_ID`. -/
structure DestRow where
  well : String
  sulfNum : Nat
  amineNum : Nat
  sulfSrc : String
  amineSrc : String
  sid : String
  amineId : String
deriving DecidableEq, Repr, Inhabited

/-- One row of the product table (`library_final_products.csv`), restricted
to the columns the merger keeps. -/
structure ProdRow where
  productId : Nat
  sid : String
  amineId : String
  smiles : String
  status : String
deriving DecidableEq, Repr, Inhabited

/-- One row of the merged output; product-side fields are `none` when the
left join found no match (pandas NaN). -/
structure MergedRow where
  well : String
  sulfNum : Nat
  amineNum : Nat
  sulfSrc : String
  amineSrc : String
  sid : String
  amineId : String
  productId : Option Nat
  smiles : Option String
  status : Option String
deriving DecidableEq, Repr, Inhabited

/-- Embedding of the merger's index normalization
(`astype(int).map(s_id)` / `astype(int).map(amine_id)`): fails on the first
cell that is not convertible to an integer, as pandas `astype` raises. -/
def astypeAll : List DestRowRaw → Except String (List DestRow)
  | [] => .ok []
  | r :: rest =>
      match r.sulfCell, r.amineCell with
      | some sn, some an =>
          (astypeAll rest).map
            (fun ds =>
              ⟨r.well, sn, an, r.sulfSrc, r.amineSrc, s_id sn, amine_id an⟩ :: ds)
      | _, _ => .error "ValueError: cannot convert to int"

/-- Whether a product row matches a destination row on the join keys
`(S_ID, Amine_ID)`. -/
def prodMatches (d : DestRow) (p : ProdRow) : Bool :=
  p.sid == d.sid && p.amineId == d.amineId

/-- The merged row for a destination row with no product match: product
fields are left empty. -/
def unmatchedRow (d : DestRow) : MergedRow :=
  ⟨d.well, d.sulfNum, d.amineNum, d.sulfSrc, d.amineSrc, d.sid, d.amineId,
    none, none, none⟩

/-- The merged row for a destination row joined with product row `p`. -/
def matchedRow (d : DestRow) (p : ProdRow) : MergedRow :=
  ⟨d.well, d.sulfNum, d.amineNum, d.sulfSrc, d.amineSrc, d.sid, d.amineId,
    some p.productId, some p.smiles, some p.status⟩

/-- Pandas left-join semantics for one left row: one output row per matching
right row, in right-table order, or a single all-empty row when nothing
matches. -/
def leftMergeRow (d : DestRow) (prods : List ProdRow) : List MergedRow :=
  match prods.filter (prodMatches d) with
  | [] => [unmatchedRow d]
  | ms => ms.map (matchedRow d)

/-- Embedding of `df_dest.merge(df_prod, on=..., how="left")`: left-table
order preserved, every left row present. -/
def leftMerge (dest : List DestRow) (prods : List ProdRow) : List MergedRow :=
  dest.flatMap (fun d => leftMergeRow d prods)

/-- Embedding of the merger's `main` after file reading: normalize the
destination map, left-join with the product table, compute the missing set
(rows whose SMILES is absent) and the exit code
(`return 1 if n_missing else 0`).  The result is
`(merged rows, missing rows, exit code)`. -/
def merge_main (destRaw : List DestRowRaw) (prods : List ProdRow) :
    Except String (List MergedRow × List MergedRow × Nat) :=
  match astypeAll destRaw with
  | .error e => .error e
  | .ok dest =>
      let dfm := leftMerge dest prods
      let missing := dfm.filter (fun m => m.smiles.isNone)
      .ok (dfm, missing, if missing.length = 0 then 0 else 1)

theorem astypeAll_ok (destRaw : List DestRowRaw)
    (h : ∀ r ∈ destRaw, r.sulfCell.isSome ∧ r.amineCell.isSome) :
    ∃ ds, astypeAll destRaw = .ok ds := by
  induction destRaw with
  | nil => exact ⟨[], rfl⟩
  | cons r rest ih =>
      obtain ⟨h1, h2⟩ := h r (by simp)
      obtain ⟨sn, hsn⟩ := Option.isSome_iff_exists.mp h1
      obtain ⟨an, han⟩ := Option.isSome_iff_exists.mp h2
      obtain ⟨ds, hds⟩ := ih (fun x hx => h x (by simp [hx]))
      exact ⟨⟨r.well, sn, an, r.sulfSrc, r.amineSrc, s_id sn, amine_id an⟩ :: ds,
        by simp [astypeAll, hsn, han, hds, Except.map]⟩

theorem leftMergeRow_well (d : DestRow) (prods : List ProdRow) :
    (leftMergeRow d prods).map MergedRow.well ≠ [] ∧
      ∀ w ∈ (leftMergeRow d prods).map MergedRow.well, w = d.well := by
  unfold leftMergeRow
  match hf : prods.filter (prodMatches d) with
  | [] => simp [unmatchedRow]
  | m :: ms => simp [matchedRow]

theorem filter_prodMatches_tail_nil (d : DestRow) (p : ProdRow)
    (rest : List ProdRow)
    (huniq : ∀ q ∈ rest, ¬(p.sid = q.sid ∧ p.amineId = q.amineId))
    (hp : prodMatches d p = true) :
    rest.filter (prodMatches d) = [] := by
  rw [List.filter_eq_nil_iff]
  intro q hq hmatch
  simp only [prodMatches, Bool.and_eq_true, beq_iff_eq] at hp hmatch
  exact huniq q hq ⟨hp.1.trans hmatch.1.symm, hp.2.trans hmatch.2.symm⟩

theorem leftMergeRow_uniq (d : DestRow) (prods : List ProdRow)
    (huniq : prods.Pairwise
      (fun p q => ¬(p.sid = q.sid ∧ p.amineId = q.amineId))) :
    (leftMergeRow d prods).length = 1 := by
  induction prods with
  | nil => rfl
  | cons p rest ih =>
      rw [List.pairwise_cons] at huniq
      by_cases hp : prodMatches d p = true
      · unfold leftMergeRow
        rw [List.filter_cons_of_pos hp,
          filter_prodMatches_tail_nil d p rest huniq.1 hp]
        rfl
      · unfold leftMergeRow
        rw [List.filter_cons_of_neg (by simpa using hp)]
        exact ih huniq.2

theorem leftMerge_wells_uniq (dest : List DestRow) (prods : List ProdRow)
    (huniq : prods.Pairwise
      (fun p q => ¬(p.sid = q.sid ∧ p.amineId = q.amineId))) :
    (leftMerge dest prods).map MergedRow.well = dest.map DestRow.well := by
  induction dest with
  | nil => rfl
  | cons d ds ih =>
      have hlen := leftMergeRow_uniq d prods huniq
      match hrow : leftMergeRow d prods with
      | [m] =>
          have hw : m.well = d.well := by
            have := (leftMergeRow_well d prods).2
            rw [hrow] at this
            exact this m.well (by simp)
          simp only [leftMerge, List.flatMap_cons] at *
          rw [hrow]
          simp only [List.map_append, List.map_cons, List.map_nil, hw]
          rw [ih]
          rfl
      | [] => rw [hrow] at hlen; simp at hlen
      | m :: m2 :: ms => rw [hrow] at hlen; simp at hlen

theorem leftMergeRow_filter_missing (d : DestRow) (prods : List ProdRow) :
    (leftMergeRow d prods).filter (fun m => m.smiles.isNone) =
      if (prods.filter (prodMatches d)).isEmpty then [unmatchedRow d]
      else [] := by
  unfold leftMergeRow
  match hf : prods.filter (prodMatches d) with
  | [] => simp [unmatchedRow]
  | m :: ms =>
      rw [if_neg (by simp), List.filter_eq_nil_iff]
      intro x hx
      simp only [List.mem_map] at hx
      obtain ⟨p, _, hp⟩ := hx
      rw [← hp]
      simp [matchedRow]

theorem leftMerge_missing (dest : List DestRow) (prods : List ProdRow) :
    (leftMerge dest prods).filter (fun m => m.smiles.isNone) =
      (dest.filter
        (fun d => (prods.filter (prodMatches d)).isEmpty)).map unmatchedRow := by
  induction dest with
  | nil => rfl
  | cons d ds ih =>
      simp only [leftMerge, List.flatMap_cons, List.filter_append] at *
      rw [ih, leftMergeRow_filter_missing]
      by_cases hempty : (prods.filter (prodMatches d)).isEmpty
      · rw [if_pos hempty, List.filter_cons_of_pos (by simpa using hempty)]
        rfl
      · rw [if_neg hempty, List.filter_cons_of_neg (by simpa using hempty)]
        rfl

/-! ## Static analyzer: `tools/opentrons_extract_destination_map.py` -/

/-- Python `\s` on the characters relevant here (ASCII whitespace; the
source patterns and `int()` also accept these). -/
def isPySpace (c : Char) : Bool :=
  c == ' ' || c == '\t' || c == '\n' || c == '\r' || c == '\x0b' || c == '\x0c'

/-- Case-insensitive literal match: consume `word` from the front of the
character list, comparing caselessly (the regexes carry `re.IGNORECASE`). -/
def dropCaseless : List Char → List Char → Option (List Char)
  | [], rest => some rest
  | _ :: _, [] => none
  | w :: ws, c :: cs =>
      if w.toLower == c.toLower then dropCaseless ws cs else none

/-- Value of an ASCII decimal digit (the model restricts `\d` and `int()`
digits to ASCII). -/
def digitVal (c : Char) : Option Nat :=
  if c.isDigit then some (c.toNat - 48) else none

/-- Greedy run of digits, returning the accumulated value and the rest. -/
def digitsRun (acc : Nat) : List Char → Nat × List Char
  | [] => (acc, [])
  | c :: cs =>
      match digitVal c with
      | some d => digitsRun (acc * 10 + d) cs
      | none => (acc, c :: cs)

/-- Model of `re.match` for the two display-name patterns
`^<word>\s+(\d+)\s*$` with `re.IGNORECASE`: the case-insensitive class word,
one or more whitespace, one or more digits (the captured number), optional
trailing whitespace. -/
def matchClassNum (word : List Char) (s : String) : Option Nat :=
  match dropCaseless word s.data with
  | none => none
  | some rest =>
      let ws1 := rest.takeWhile isPySpace
      let rest1 := rest.dropWhile isPySpace
      if ws1.isEmpty then none
      else
        match rest1 with
        | [] => none
        | c :: cs =>
            match digitVal c with
            | none => none
            | some d =>
                let r := digitsRun d cs
                if r.2.all isPySpace then some r.1 else none

/-- Embedding of `RE_AMINE.match(name)`, returning the captured number. -/
def matchAmine (s : String) : Option Nat :=
  matchClassNum ['A', 'm', 'i', 'n', 'e'] s

/-- Embedding of `RE_SULF.match(name)`, returning the captured number. -/
def matchSulf (s : String) : Option Nat :=
  matchClassNum ['S', 'u', 'l', 'f', 'o', 'n', 'y', 'l', 'C', 'l'] s

/-- The destination argument of a `transfer` call: a variable reference or a
literal list whose elements are string constants (`some s`) or other
expressions (`none`). -/
inductive DestArg where
  | nameRef (v : String)
  | lit (elts : List (Option String))
deriving DecidableEq, Repr

/-- A statement of the `run` body, abstracted to the shapes the analyzer
recognizes via the `ast` module: `define_liquid` assignments (with the
literal `name=` keyword if present), `load_liquid` calls (receiver base
symbol, well label, `liquid=` variable, literal `volume=`), destination
list-comprehension assignments (the literal well labels, `none` for
non-string elements), `transfer` calls (source base symbol and well label,
destination argument), and everything else. -/
inductive Stmt where
  | defineLiquid (var : String) (name : Option String)
  | loadLiquid (base well : String) (liquidVar : Option String)
      (volume : Option Nat)
  | destList (var : String) (elts : List (Option String))
  | transferCall (srcBase srcWell : String) (dest : DestArg)
  | other
deriving DecidableEq, Repr

/-- The filter applied to literal well lists: keep string constants that are
truthy (non-empty), as `if s:` does. -/
def pyStrFilter (elts : List (Option String)) : List String :=
  elts.filterMap fun e =>
    match e with
    | some s => if s.isEmpty then none else some s
    | none => none

/-- Python dict assignment `d[k] = v`: replace in place when the key exists,
append otherwise (insertion order preserved). -/
def dictInsert {α : Type} (k : String) (v : α) :
    List (String × α) → List (String × α)
  | [] => [(k, v)]
  | (k2, v2) :: rest =>
      if k2 = k then (k, v) :: rest else (k2, v2) :: dictInsert k v rest

/-- Python dict lookup `d.get(k)`. -/
def dictGet? {α : Type} (k : String) : List (String × α) → Option α
  | [] => none
  | (k2, v) :: rest => if k2 = k then some v else dictGet? k rest

/-- A recognized reagent binding: class (`"amine"` or `"sulfonyl"`), number,
display name. -/
structure RInfo where
  rclass : String
  num : Nat
  name : String
deriving DecidableEq, Repr, Inhabited

/-- Step 1 of `parse_protocol`: fold one statement into `reagent_vars`.
Statements that are not `define_liquid` assignments, have no truthy literal
name, or whose name matches neither pattern, leave the dict unchanged. -/
def reagentVarsStep (rv : List (String × RInfo)) : Stmt → List (String × RInfo)
  | .defineLiquid var nameOpt =>
      match nameOpt with
      | none => rv
      | some nm =>
          if nm.isEmpty then rv
          else
            match matchAmine nm with
            | some n => dictInsert var ⟨"amine", n, nm⟩ rv
            | none =>
                match matchSulf nm with
                | some n => dictInsert var ⟨"sulfonyl", n, nm⟩ rv
                | none => rv
  | _ => rv

/-- Step 1 of `parse_protocol`: `reagent_vars`. -/
def buildReagentVars (stmts : List Stmt) : List (String × RInfo) :=
  stmts.foldl reagentVarsStep []

/-- A recovered source-well load: the bound liquid variable and the literal
volume if any. -/
structure SrcInfo where
  liquidVar : String
  volume : Option Nat
deriving DecidableEq, Repr, Inhabited

/-- Step 2 of `parse_protocol`: fold one statement into `source_well_map`
(`load_liquid` calls on a `source_plate` subscript with a truthy well label
and a `liquid=` name reference). -/
def sourceWellStep (sv : List (String × SrcInfo)) : Stmt → List (String × SrcInfo)
  | .loadLiquid base well lv vol =>
      if base = "source_plate" ∧ ¬well.isEmpty then
        match lv with
        | some v => dictInsert well ⟨v, vol⟩ sv
        | none => sv
      else sv
  | _ => sv

/-- Step 2 of `parse_protocol`: `source_well_map`. -/
def buildSourceWellMap (stmts : List Stmt) : List (String × SrcInfo) :=
  stmts.foldl sourceWellStep []

/-- Step 3 of `parse_protocol`: fold one statement into `dest_lists`
(list-comprehension assignments whose literal well list filters to a
non-empty list). -/
def destListsStep (dl : List (String × List String)) :
    Stmt → List (String × List String)
  | .destList var elts =>
      let wells := pyStrFilter elts
      if wells.isEmpty then dl else dictInsert var wells dl
  | _ => dl

/-- Step 3 of `parse_protocol`: `dest_lists`. -/
def buildDestLists (stmts : List Stmt) : List (String × List String) :=
  stmts.foldl destListsStep []

/-- A recovered transfer: source well and resolved destination well
labels. -/
structure Transfer where
  srcWell : String
  destWells : List String
deriving DecidableEq, Repr, Inhabited

/-- Step 4 of `parse_protocol`: fold one statement into `transfers`.  The
destination argument resolves through `dest_lists` or a literal list; a
falsy result (unknown name, empty list) drops the transfer. -/
def transfersStep (dl : List (String × List String)) (ts : List Transfer) :
    Stmt → List Transfer
  | .transferCall base srcWell dest =>
      if base = "source_plate" ∧ ¬srcWell.isEmpty then
        let dw? : Option (List String) :=
          match dest with
          | .nameRef v => dictGet? v dl
          | .lit elts => some (pyStrFilter elts)
        match dw? with
        | some ws => if ws.isEmpty then ts else ts ++ [⟨srcWell, ws⟩]
        | none => ts
      else ts
  | _ => ts

/-- Step 4 of `parse_protocol`: `transfers`. -/
def buildTransfers (stmts : List Stmt) : List Transfer :=
  stmts.foldl (transfersStep (buildDestLists stmts)) []

/-- One destination-map entry; the source initializes the four reagent
fields to the empty string, modeled as `none`. -/
structure DestEntry where
  well : String
  sulfNum : Option Nat
  amineNum : Option Nat
  sulfSrc : Option String
  amineSrc : Option String
deriving DecidableEq, Repr, Inhabited

/-- The entry `setdefault` creates for a well not yet in the map. -/
def blankEntry (w : String) : DestEntry := ⟨w, none, none, none, none⟩

/-- The per-class field assignment of the fold step: a sulfonyl-class
reagent overwrites the sulfonyl fields, an amine-class reagent the amine
fields. -/
def updateEntry (ri : RInfo) (src : String) (e : DestEntry) : DestEntry :=
  if ri.rclass = "sulfonyl" then
    { e with sulfNum := some ri.num, sulfSrc := some src }
  else if ri.rclass = "amine" then
    { e with amineNum := some ri.num, amineSrc := some src }
  else e

/-- The fold step for one destination well of a resolved transfer:
`setdefault` then field assignment. -/
def applyWell (ri : RInfo) (src : String) (dm : List (String × DestEntry))
    (dw : String) : List (String × DestEntry) :=
  dictInsert dw (updateEntry ri src ((dictGet? dw dm).getD (blankEntry dw))) dm

/-- The fold step for one transfer: resolve the source well through
`source_well_map`, its variable through `reagent_vars`, then update every
destination well; unresolvable transfers leave the map unchanged
(`continue`). -/
def applyTransfer (rv : List (String × RInfo)) (sv : List (String × SrcInfo))
    (dm : List (String × DestEntry)) (t : Transfer) :
    List (String × DestEntry) :=
  match dictGet? t.srcWell sv with
  | none => dm
  | some si =>
      match dictGet? si.liquidVar rv with
      | none => dm
      | some ri => t.destWells.foldl (applyWell ri t.srcWell) dm

/-- The destination-map fold over an explicit transfer list. -/
def buildDestMapT (rv : List (String × RInfo)) (sv : List (String × SrcInfo))
    (ts : List Transfer) : List (String × DestEntry) :=
  ts.foldl (applyTransfer rv sv) []

/-- The full destination-map construction of `parse_protocol` (steps 1-4
plus the fold). -/
def buildDestMap (stmts : List Stmt) : List (String × DestEntry) :=
  buildDestMapT (buildReagentVars stmts) (buildSourceWellMap stmts)
    (buildTransfers stmts)

/-- Digits possibly separated by single underscores, continuing an initial
digit: Python `int()` grammar after the first digit. -/
def digitsUS (acc : Nat) : List Char → Option Nat
  | [] => some acc
  | '_' :: cs =>
      match cs with
      | [] => none
      | c :: cs2 =>
          match digitVal c with
          | some d => digitsUS (acc * 10 + d) cs2
          | none => none
  | c :: cs =>
      match digitVal c with
      | some d => digitsUS (acc * 10 + d) cs
      | none => none

/-- A non-empty digit sequence (underscore-separated) starting the list. -/
def firstDigits : List Char → Option Nat
  | [] => none
  | c :: cs =>
      match digitVal c with
      | some d => digitsUS d cs
      | none => none

/-- Model of Python `int(str)`: optional surrounding whitespace, optional
sign, then underscore-separated decimal digits; `none` models the
`ValueError`. -/
def pyInt? (s : String) : Option Int :=
  let cs := s.data.dropWhile isPySpace
  let cs2 := (cs.reverse.dropWhile isPySpace).reverse
  match cs2 with
  | '+' :: rest => (firstDigits rest).map fun n => (n : Int)
  | '-' :: rest => (firstDigits rest).map fun n => -(n : Int)
  | rest => (firstDigits rest).map fun n => (n : Int)

/-- The row letters of `_well_sort_key` (the literal `"ABCDEFGH"`). -/
def sortRowLetters : List Char := ['A', 'B', 'C', 'D', 'E', 'F', 'G', 'H']

/-- Body of `_well_sort_key` on the label's characters. -/
def well_sort_key_data : List Char → Option (Int × Nat)
  | [] => none
  | c :: rest =>
      match pyInt? (String.mk rest) with
      | none => none
      | some col =>
          match sortRowLetters.indexOf? c.toUpper with
          | none => none
          | some ro => some (col, ro)

/-- Embedding of `_well_sort_key`: `none` models the exceptions
(`w[0]` on an empty label, `int(w[1:])` on a non-integer, `.index` on a
letter outside A..H after upcasing). -/
def well_sort_key? (w : String) : Option (Int × Nat) :=
  well_sort_key_data w.data

/-- Ordering on sort keys (column first, then row order), as Python compares
the tuples. -/
def keyLe (a b : Int × Nat) : Bool :=
  if a.1 = b.1 then a.2 ≤ b.2 else a.1 ≤ b.1

/-- The analyzer's output stage: sort the destination-map rows by
`_well_sort_key`, which raises (modeled as `.error`) as soon as any stored
well label has no key. -/
def parse_protocol_dest (stmts : List Stmt) : Except String (List DestEntry) :=
  let dm := buildDestMap stmts
  if dm.all (fun kv => (well_sort_key? kv.1).isSome) then
    .ok (((dm.map Prod.fst).mergeSort fun a b =>
      keyLe ((well_sort_key? a).getD (0, 0)) ((well_sort_key? b).getD (0, 0))).map
        fun w => (dictGet? w dm).getD (blankEntry w))
  else .error "ValueError"

/-! ## Dict lemmas -/

theorem dictGet?_insert_self {α : Type} (k : String) (v : α)
    (l : List (String × α)) : dictGet? k (dictInsert k v l) = some v := by
  induction l with
  | nil => simp [dictInsert, dictGet?]
  | cons kv rest ih =>
      obtain ⟨k2, v2⟩ := kv
      by_cases h : k2 = k
      · simp [dictInsert, dictGet?, h]
      · simp [dictInsert, dictGet?, h, ih]

theorem dictGet?_insert_ne {α : Type} (k k2 : String) (v : α)
    (l : List (String × α)) (h : k2 ≠ k) :
    dictGet? k (dictInsert k2 v l) = dictGet? k l := by
  induction l with
  | nil => simp [dictInsert, dictGet?, h]
  | cons kv rest ih =>
      obtain ⟨k3, v3⟩ := kv
      by_cases h3 : k3 = k2
      · subst h3
        simp only [dictInsert, if_pos rfl]
        simp [dictGet?, h]
      · simp only [dictInsert, if_neg h3]
        by_cases hk3 : k3 = k
        · simp [dictGet?, hk3]
        · simp [dictGet?, hk3, ih]

theorem keys_dictInsert {α : Type} (k : String) (v : α)
    (l : List (String × α)) :
    (dictInsert k v l).map Prod.fst =
      if k ∈ l.map Prod.fst then l.map Prod.fst
      else l.map Prod.fst ++ [k] := by
  induction l with
  | nil => simp [dictInsert]
  | cons kv rest ih =>
      obtain ⟨k2, v2⟩ := kv
      by_cases h2 : k2 = k
      · subst h2; simp [dictInsert]
      · simp only [dictInsert, if_neg h2, List.map_cons, ih]
        by_cases hmem : k ∈ rest.map Prod.fst
        · rw [if_pos hmem,
            if_pos (List.mem_cons_of_mem _ hmem)]
        · have hk2 : ¬k = k2 := fun hh => h2 hh.symm
          rw [if_neg hmem, if_neg (by simp [hk2, hmem])]
          simp

theorem mem_keys_dictInsert {α : Type} (k k2 : String) (v : α)
    (l : List (String × α)) (h : k2 ∈ (dictInsert k v l).map Prod.fst) :
    k2 = k ∨ k2 ∈ l.map Prod.fst := by
  rw [keys_dictInsert] at h
  by_cases hmem : k ∈ l.map Prod.fst
  · rw [if_pos hmem] at h; exact Or.inr h
  · rw [if_neg hmem] at h
    rcases List.mem_append.mp h with h1 | h1
    · exact Or.inr h1
    · exact Or.inl (by simpa using h1)

theorem dictInsert_keys_nodup {α : Type} (k : String) (v : α)
    (l : List (String × α)) (h : (l.map Prod.fst).Nodup) :
    ((dictInsert k v l).map Prod.fst).Nodup := by
  rw [keys_dictInsert]
  by_cases hmem : k ∈ l.map Prod.fst
  · rw [if_pos hmem]; exact h
  · rw [if_neg hmem]
    rw [List.nodup_append]
    refine ⟨h, List.nodup_singleton k, ?_⟩
    intro a ha
    simp only [List.mem_singleton]
    intro hak
    exact hmem (hak ▸ ha)

theorem mem_dictInsert {α : Type} (k : String) (v : α) :
    ∀ (l : List (String × α)) (kv : String × α), kv ∈ dictInsert k v l →
      kv = (k, v) ∨ kv ∈ l := by
  intro l
  induction l with
  | nil => intro kv hkv; simpa [dictInsert] using hkv
  | cons kv2 rest ih =>
      intro kv hkv
      obtain ⟨k2, v2⟩ := kv2
      by_cases h2 : k2 = k
      · subst h2
        simp only [dictInsert, if_pos rfl] at hkv
        rcases List.mem_cons.mp hkv with h1 | h1
        · exact Or.inl h1
        · exact Or.inr (List.mem_cons_of_mem _ h1)
      · simp only [dictInsert, if_neg h2] at hkv
        rcases List.mem_cons.mp hkv with h1 | h1
        · exact Or.inr (by rw [h1]; exact List.mem_cons_self _ _)
        · rcases ih kv h1 with h3 | h3
          · exact Or.inl h3
          · exact Or.inr (List.mem_cons_of_mem _ h3)

theorem dictGet?_isSome_insert {α : Type} (k k2 : String) (v : α)
    (l : List (String × α)) (h : (dictGet? k l).isSome) :
    (dictGet? k (dictInsert k2 v l)).isSome := by
  by_cases hk : k2 = k
  · subst hk; simp [dictGet?_insert_self]
  · rw [dictGet?_insert_ne _ _ _ _ hk]; exact h

/-! ## Analyzer lemmas -/

theorem applyTransfer_skip (rv : List (String × RInfo))
    (sv : List (String × SrcInfo)) (dm : List (String × DestEntry))
    (t : Transfer)
    (h : dictGet? t.srcWell sv = none ∨
      ∃ si, dictGet? t.srcWell sv = some si ∧
        dictGet? si.liquidVar rv = none) :
    applyTransfer rv sv dm t = dm := by
  rcases h with h | ⟨si, h1, h2⟩
  · simp [applyTransfer, h]
  · simp [applyTransfer, h1, h2]

theorem buildDestMapT_skip (rv : List (String × RInfo))
    (sv : List (String × SrcInfo)) (ts1 ts2 : List Transfer) (t : Transfer)
    (h : dictGet? t.srcWell sv = none ∨
      ∃ si, dictGet? t.srcWell sv = some si ∧
        dictGet? si.liquidVar rv = none) :
    buildDestMapT rv sv (ts1 ++ t :: ts2) = buildDestMapT rv sv (ts1 ++ ts2) := by
  unfold buildDestMapT
  rw [List.foldl_append, List.foldl_append, List.foldl_cons,
    applyTransfer_skip rv sv _ t h]

theorem reagentVars_go_none (var : String) :
    ∀ (stmts : List Stmt) (rv : List (String × RInfo)),
      (∀ nm, Stmt.defineLiquid var (some nm) ∈ stmts →
        matchAmine nm = none ∧ matchSulf nm = none) →
      dictGet? var rv = none →
      dictGet? var (stmts.foldl reagentVarsStep rv) = none := by
  intro stmts
  induction stmts with
  | nil => intro rv _ h0; exact h0
  | cons s rest ih =>
      intro rv h h0
      rw [List.foldl_cons]
      refine ih (reagentVarsStep rv s) (fun nm hm => h nm (by simp [hm])) ?_
      cases s with
      | defineLiquid var2 nameOpt =>
          cases nameOpt with
          | none => simpa [reagentVarsStep] using h0
          | some nm =>
              by_cases he : nm.isEmpty
              · simpa [reagentVarsStep, he] using h0
              · by_cases hvar : var2 = var
                · subst hvar
                  have hnm := h nm (by simp)
                  simpa [reagentVarsStep, he, hnm.1, hnm.2] using h0
                · cases hA : matchAmine nm with
                  | some n =>
                      simpa [reagentVarsStep, he, hA,
                        dictGet?_insert_ne var var2 _ rv hvar] using h0
                  | none =>
                      cases hS : matchSulf nm with
                      | some n =>
                          simpa [reagentVarsStep, he, hA, hS,
                            dictGet?_insert_ne var var2 _ rv hvar] using h0
                      | none => simpa [reagentVarsStep, he, hA, hS] using h0
      | loadLiquid base well lv vol => simpa [reagentVarsStep] using h0
      | destList v elts => simpa [reagentVarsStep] using h0
      | transferCall b sw d => simpa [reagentVarsStep] using h0
      | other => simpa [reagentVarsStep] using h0

theorem buildReagentVars_none (stmts : List Stmt) (var : String)
    (h : ∀ nm, Stmt.defineLiquid var (some nm) ∈ stmts →
      matchAmine nm = none ∧ matchSulf nm = none) :
    dictGet? var (buildReagentVars stmts) = none :=
  reagentVars_go_none var stmts [] h rfl

theorem dictGet?_applyWell_self (ri : RInfo) (src : String)
    (dm : List (String × DestEntry)) (dw : String) :
    dictGet? dw (applyWell ri src dm dw) =
      some (updateEntry ri src ((dictGet? dw dm).getD (blankEntry dw))) := by
  simp [applyWell, dictGet?_insert_self]

theorem updateEntry_sulfonyl (ri : RInfo) (src : String) (e : DestEntry)
    (h : ri.rclass = "sulfonyl") :
    (updateEntry ri src e).sulfNum = some ri.num ∧
      (updateEntry ri src e).sulfSrc = some src ∧
      (updateEntry ri src e).amineNum = e.amineNum ∧
      (updateEntry ri src e).amineSrc = e.amineSrc ∧
      (updateEntry ri src e).well = e.well := by
  simp [updateEntry, h]

theorem updateEntry_amine (ri : RInfo) (src : String) (e : DestEntry)
    (h : ri.rclass = "amine") :
    (updateEntry ri src e).amineNum = some ri.num ∧
      (updateEntry ri src e).amineSrc = some src ∧
      (updateEntry ri src e).sulfNum = e.sulfNum ∧
      (updateEntry ri src e).sulfSrc = e.sulfSrc ∧
      (updateEntry ri src e).well = e.well := by
  have hne : ri.rclass ≠ "sulfonyl" := by rw [h]; decide
  simp [updateEntry, h, hne]

theorem applyWell_keys_nodup (ri : RInfo) (src : String)
    (dm : List (String × DestEntry)) (dw : String)
    (h : (dm.map Prod.fst).Nodup) :
    ((applyWell ri src dm dw).map Prod.fst).Nodup :=
  dictInsert_keys_nodup _ _ _ h

theorem foldl_applyWell_keys_nodup (ri : RInfo) (src : String) :
    ∀ (dws : List String) (dm : List (String × DestEntry)),
      (dm.map Prod.fst).Nodup →
      ((dws.foldl (applyWell ri src) dm).map Prod.fst).Nodup := by
  intro dws
  induction dws with
  | nil => intro dm h; exact h
  | cons dw rest ih =>
      intro dm h
      rw [List.foldl_cons]
      exact ih _ (applyWell_keys_nodup ri src dm dw h)

theorem applyTransfer_keys_nodup (rv : List (String × RInfo))
    (sv : List (String × SrcInfo)) (dm : List (String × DestEntry))
    (t : Transfer) (h : (dm.map Prod.fst).Nodup) :
    ((applyTransfer rv sv dm t).map Prod.fst).Nodup := by
  cases h1 : dictGet? t.srcWell sv with
  | none => simpa [applyTransfer, h1] using h
  | some si =>
      cases h2 : dictGet? si.liquidVar rv with
      | none => simpa [applyTransfer, h1, h2] using h
      | some ri =>
          have hres := foldl_applyWell_keys_nodup ri t.srcWell t.destWells dm h
          simpa [applyTransfer, h1, h2] using hres

theorem buildDestMapT_keys_nodup (rv : List (String × RInfo))
    (sv : List (String × SrcInfo)) (ts : List Transfer) :
    ((buildDestMapT rv sv ts).map Prod.fst).Nodup := by
  have main : ∀ (l : List Transfer) (dm : List (String × DestEntry)),
      (dm.map Prod.fst).Nodup →
      ((l.foldl (applyTransfer rv sv) dm).map Prod.fst).Nodup := by
    intro l
    induction l with
    | nil => intro dm h; exact h
    | cons t rest ih =>
        intro dm h
        rw [List.foldl_cons]
        exact ih _ (applyTransfer_keys_nodup rv sv dm t h)
  exact main ts [] (by simp)

theorem dictGet?_mem {α : Type} (k : String) (l : List (String × α)) (v : α)
    (h : dictGet? k l = some v) : (k, v) ∈ l := by
  induction l with
  | nil => simp [dictGet?] at h
  | cons kv rest ih =>
      obtain ⟨k2, v2⟩ := kv
      by_cases h2 : k2 = k
      · subst h2
        rw [dictGet?, if_pos rfl] at h
        simp only [Option.some_inj] at h
        simp [h]
      · rw [dictGet?, if_neg h2] at h
        exact List.mem_cons_of_mem _ (ih h)

theorem wellField_invariant (ri : RInfo) (src : String) :
    ∀ (dws : List String) (dm : List (String × DestEntry)),
      (∀ kv ∈ dm, (kv : String × DestEntry).2.well = kv.1) →
      ∀ kv ∈ dws.foldl (applyWell ri src) dm, kv.2.well = kv.1 := by
  intro dws
  induction dws with
  | nil => intro dm h kv hkv; exact h kv hkv
  | cons dw rest ih =>
      intro dm h kv hkv
      rw [List.foldl_cons] at hkv
      refine ih (applyWell ri src dm dw) ?_ kv hkv
      intro kv2 hkv2
      rcases mem_dictInsert _ _ _ kv2 hkv2 with heq | hmem
      · have hupd : (updateEntry ri src
            ((dictGet? dw dm).getD (blankEntry dw))).well =
            ((dictGet? dw dm).getD (blankEntry dw)).well := by
          simp only [updateEntry]
          split
          · rfl
          · split
            · rfl
            · rfl
        rw [heq]
        show (updateEntry ri src
          ((dictGet? dw dm).getD (blankEntry dw))).well = dw
        rw [hupd]
        cases hget : dictGet? dw dm with
        | none => simp [blankEntry]
        | some e =>
            simpa using h (dw, e) (dictGet?_mem dw dm e hget)
      · exact h kv2 hmem

theorem buildDestMapT_wellField (rv : List (String × RInfo))
    (sv : List (String × SrcInfo)) (ts : List Transfer) :
    ∀ kv ∈ buildDestMapT rv sv ts, (kv : String × DestEntry).2.well = kv.1 := by
  have main : ∀ (l : List Transfer) (dm : List (String × DestEntry)),
      (∀ kv ∈ dm, (kv : String × DestEntry).2.well = kv.1) →
      ∀ kv ∈ l.foldl (applyTransfer rv sv) dm, kv.2.well = kv.1 := by
    intro l
    induction l with
    | nil => intro dm h kv hkv; exact h kv hkv
    | cons t rest ih =>
        intro dm h kv hkv
        rw [List.foldl_cons] at hkv
        refine ih _ ?_ kv hkv
        cases h1 : dictGet? t.srcWell sv with
        | none => simpa [applyTransfer, h1] using h
        | some si =>
            cases h2 : dictGet? si.liquidVar rv with
            | none => simpa [applyTransfer, h1, h2] using h
            | some ri =>
                have hres := wellField_invariant ri t.srcWell t.destWells dm h
                simpa [applyTransfer, h1, h2] using hres
  exact main ts [] (by simp)

theorem parse_protocol_dest_error (stmts : List Stmt) (w : String)
    (hw : w ∈ (buildDestMap stmts).map Prod.fst)
    (hbad : well_sort_key? w = none) :
    parse_protocol_dest stmts = .error "ValueError" := by
  unfold parse_protocol_dest
  rw [if_neg]
  intro hall
  rw [List.all_eq_true] at hall
  obtain ⟨kv, hkv, hfst⟩ := List.mem_map.mp hw
  have hsome := hall kv hkv
  rw [hfst, hbad] at hsome
  simp at hsome

theorem parse_protocol_dest_ok (stmts : List Stmt)
    (h : ∀ kv ∈ buildDestMap stmts, (well_sort_key? (kv : String × DestEntry).1).isSome) :
    ∃ rows, parse_protocol_dest stmts = .ok rows := by
  unfold parse_protocol_dest
  rw [if_pos (List.all_eq_true.mpr fun kv hkv => h kv hkv)]
  exact ⟨_, rfl⟩

theorem well_sort_key?_none_of_bad (w : String)
    (h : w.data = [] ∨ ∃ c rest, w.data = c :: rest ∧
      (c.toUpper ∉ sortRowLetters ∨ pyInt? (String.mk rest) = none)) :
    well_sort_key? w = none := by
  unfold well_sort_key?
  rcases h with h | ⟨c, rest, hcr, hbad⟩
  · rw [h]; rfl
  · rw [hcr]
    rcases hbad with hrow | hpy
    · have hidx : sortRowLetters.indexOf? c.toUpper = none := by
        rw [List.indexOf?_eq_none_iff]
        intro x hx
        simp only [beq_iff_eq]
        intro hxc
        exact hrow (hxc ▸ hx)
      cases hp : pyInt? (String.mk rest) with
      | none => simp [well_sort_key_data, hp]
      | some col => simp [well_sort_key_data, hp, hidx]
    · simp [well_sort_key_data, hpy]

/-! ## Status and ID-rendering lemmas -/

theorem best_effort_status (runOut : Option (List (List Candidate)))
    (cs : String) :
    (best_effort_product runOut cs).2 = "OK_REACTION" ∨
      (best_effort_product runOut cs).2 = "FALLBACK_COMBINEMOLS" := by
  cases h : first_sanitized_product_smiles runOut with
  | none => simp [best_effort_product, h]
  | some smi =>
      by_cases he : smi.isEmpty
      · simp [best_effort_product, h, he]
      · simp [best_effort_product, h, he]

theorem enumAmines_status
    (react : Reagent → Reagent → Option (List (List Candidate)))
    (combine : Reagent → Reagent → String) (s : Reagent) :
    ∀ (amines : List Reagent) (pid : Nat) (t : EnumRow),
      t ∈ enumAmines react combine s pid amines →
      t.2.2.2.2 = "OK_REACTION" ∨ t.2.2.2.2 = "FALLBACK_COMBINEMOLS" := by
  intro amines
  induction amines with
  | nil => intro pid t ht; simp [enumAmines] at ht
  | cons a rest ih =>
      intro pid t ht
      rcases List.mem_cons.mp ht with h1 | h1
      · rw [h1]
        exact best_effort_status (react s a) (combine s a)
      · exact ih (pid + 1) t h1

theorem enumSulfonyls_status
    (react : Reagent → Reagent → Option (List (List Candidate)))
    (combine : Reagent → Reagent → String) (amines : List Reagent) :
    ∀ (sulfonyls : List Reagent) (pid : Nat) (t : EnumRow),
      t ∈ enumSulfonyls react combine amines pid sulfonyls →
      t.2.2.2.2 = "OK_REACTION" ∨ t.2.2.2.2 = "FALLBACK_COMBINEMOLS" := by
  intro sulfonyls
  induction sulfonyls with
  | nil => intro pid t ht; simp [enumSulfonyls] at ht
  | cons s rest ih =>
      intro pid t ht
      rcases List.mem_append.mp ht with h1 | h1
      · exact enumAmines_status react combine s amines pid t h1
      · exact ih (pid + amines.length) t h1

theorem load_reagents_go_id (useName : Bool) (pref : String) :
    ∀ (rows : List CsvRow) (i : Nat) (r : Reagent),
      r ∈ load_reagents_go true useName pref i rows →
      ∃ c ∈ rows, c.idCell = r.rid := by
  intro rows
  induction rows with
  | nil => intro i r hr; simp [load_reagents_go] at hr
  | cons c rest ih =>
      intro i r hr
      cases hc : c.parsedSmiles with
      | none =>
          simp only [load_reagents_go, hc] at hr
          obtain ⟨c2, hc2, heq⟩ := ih (i + 1) r hr
          exact ⟨c2, List.mem_cons_of_mem _ hc2, heq⟩
      | some smi =>
          simp only [load_reagents_go, hc, if_true] at hr
          rcases List.mem_cons.mp hr with h1 | h1
          · refine ⟨c, List.mem_cons_self _ _, ?_⟩
            rw [h1]
          · obtain ⟨c2, hc2, heq⟩ := ih (i + 1) r h1
            exact ⟨c2, List.mem_cons_of_mem _ hc2, heq⟩

theorem load_reagents_go_auto (useName : Bool) (pref : String) :
    ∀ (rows : List CsvRow) (i : Nat) (r : Reagent),
      r ∈ load_reagents_go false useName pref i rows →
      ∃ j, r.rid = pref ++ pad0 6 j := by
  intro rows
  induction rows with
  | nil => intro i r hr; simp [load_reagents_go] at hr
  | cons c rest ih =>
      intro i r hr
      cases hc : c.parsedSmiles with
      | none =>
          simp only [load_reagents_go, hc] at hr
          exact ih (i + 1) r hr
      | some smi =>
          simp only [load_reagents_go, hc] at hr
          rcases List.mem_cons.mp hr with h1 | h1
          · exact ⟨i, by rw [h1]; simp⟩
          · exact ih (i + 1) r h1

theorem amine_id_ne_auto (n i : Nat) : amine_id n ≠ "A_" ++ pad0 6 i := by
  intro h
  unfold amine_id at h
  have h' : ("Amine_ID_" ++ pad0 3 n).data = ("A_" ++ pad0 6 i).data :=
    congrArg String.data h
  rw [String.data_append, String.data_append] at h'
  have hA : ("Amine_ID_" : String).data =
      'A' :: 'm' :: 'i' :: 'n' :: 'e' :: '_' :: 'I' :: 'D' :: '_' :: [] := rfl
  have hB : ("A_" : String).data = 'A' :: '_' :: [] := rfl
  rw [hA, hB] at h'
  simp at h'

/-! ## Claims -/

/-- C1: for reagent lists of sizes N and M, `enumerate_one_step` yields
exactly N * M products, whose ProductID values are exactly `0..N*M-1` in
order, each appearing once, assigned row-major with the sulfonyl list as the
outer axis and the amine list as the inner axis (the pair at index
`i*M + j` is `(sulfonyls[i], amines[j])` with id `i*M + j`), with the id
incremented after every pair regardless of the oracle's outcome (the
statement holds for every `react`). -/
theorem enumerate_one_step_row_major
    (react : Reagent → Reagent → Option (List (List Candidate)))
    (combine : Reagent → Reagent → String)
    (sulfonyls amines : List Reagent) (i j : Nat)
    (hi : i < sulfonyls.length) (hj : j < amines.length) :
    (enumerate_one_step react combine sulfonyls amines).length =
        sulfonyls.length * amines.length ∧
      (enumerate_one_step react combine sulfonyls amines).map (fun t => t.1) =
        List.range (sulfonyls.length * amines.length) ∧
      ((enumerate_one_step react combine sulfonyls amines).getD
          (i * amines.length + j) default).1 = i * amines.length + j ∧
      ((enumerate_one_step react combine sulfonyls amines).getD
          (i * amines.length + j) default).2.1 = sulfonyls.getD i default ∧
      ((enumerate_one_step react combine sulfonyls amines).getD
          (i * amines.length + j) default).2.2.1 = amines.getD j default := by
  have hg := enumSulfonyls_getD react combine amines 0 sulfonyls i j hi hj
  refine ⟨enumerate_one_step_length react combine sulfonyls amines, ?_, ?_, ?_, ?_⟩
  · rw [List.range_eq_range']
    exact enumSulfonyls_map_fst react combine amines 0 sulfonyls
  · simp only [enumerate_one_step]
    rw [hg]
    exact Nat.zero_add _
  · simp only [enumerate_one_step]
    rw [hg]
  · simp only [enumerate_one_step]
    rw [hg]

/-- Witness for C1: two sulfonyls and one amine; the element at row-major
index `1*1 + 0` carries id 1. -/
theorem enumerate_one_step_row_major_witness :
    ((enumerate_one_step (fun _ _ => none) (fun _ _ => "C.C")
        [⟨"CS(=O)(=O)Cl", "S_001", "s1"⟩, ⟨"CCS(=O)(=O)Cl", "S_002", "s2"⟩]
        [⟨"CN", "Amine_ID_001", "a1"⟩]).getD 1 default).1 = 1 :=
  (enumerate_one_step_row_major (fun _ _ => none) (fun _ _ => "C.C")
    [⟨"CS(=O)(=O)Cl", "S_001", "s1"⟩, ⟨"CCS(=O)(=O)Cl", "S_002", "s2"⟩]
    [⟨"CN", "Amine_ID_001", "a1"⟩] 1 0 (by decide) (by decide)).2.2.1

/-- C2: `best_effort_product` is total and always yields exactly one
product with status `OK_REACTION` or `FALLBACK_COMBINEMOLS`; when the
reaction yields no sanitizable candidate the fallback (the combined
reactants) is returned, with no further failure mode; hence every pair of
the enumeration yields exactly one product (N * M in total) whose status is
one of the two. -/
theorem best_effort_total_statuses
    (react : Reagent → Reagent → Option (List (List Candidate)))
    (combine : Reagent → Reagent → String)
    (sulfonyls amines : List Reagent)
    (runOut : Option (List (List Candidate))) (combineSmiles : String)
    (t : EnumRow)
    (ht : t ∈ enumerate_one_step react combine sulfonyls amines) :
    ((∃ smi, best_effort_product runOut combineSmiles =
          (smi, "OK_REACTION")) ∨
        best_effort_product runOut combineSmiles =
          (combineSmiles, "FALLBACK_COMBINEMOLS")) ∧
      (first_sanitized_product_smiles runOut = none →
        best_effort_product runOut combineSmiles =
          (combineSmiles, "FALLBACK_COMBINEMOLS")) ∧
      (enumerate_one_step react combine sulfonyls amines).length =
        sulfonyls.length * amines.length ∧
      (t.2.2.2.2 = "OK_REACTION" ∨ t.2.2.2.2 = "FALLBACK_COMBINEMOLS") := by
  refine ⟨?_, ?_, enumerate_one_step_length react combine sulfonyls amines,
    enumSulfonyls_status react combine amines sulfonyls 0 t ht⟩
  · cases h : first_sanitized_product_smiles runOut with
    | none => exact Or.inr (by simp [best_effort_product, h])
    | some smi =>
        by_cases he : smi.isEmpty
        · exact Or.inr (by simp [best_effort_product, h, he])
        · exact Or.inl ⟨smi, by simp [best_effort_product, h, he]⟩
  · intro h
    simp [best_effort_product, h]

/-- Witness for C2: an oracle returning no candidate set still yields one
product with the fallback status. -/
theorem best_effort_total_statuses_witness :
    ((enumerate_one_step (fun _ _ => none) (fun _ _ => "C.C")
        [⟨"CS(=O)(=O)Cl", "S_001", "s1"⟩]
        [⟨"CN", "Amine_ID_001", "a1"⟩]).getD 0 default).2.2.2.2 =
        "OK_REACTION" ∨
      ((enumerate_one_step (fun _ _ => none) (fun _ _ => "C.C")
        [⟨"CS(=O)(=O)Cl", "S_001", "s1"⟩]
        [⟨"CN", "Amine_ID_001", "a1"⟩]).getD 0 default).2.2.2.2 =
        "FALLBACK_COMBINEMOLS" :=
  (best_effort_total_statuses (fun _ _ => none) (fun _ _ => "C.C")
    [⟨"CS(=O)(=O)Cl", "S_001", "s1"⟩] [⟨"CN", "Amine_ID_001", "a1"⟩]
    none "C.C" _ (by decide)).2.2.2

/-- C3: the record at index `i` of `plate_assign_96` is exactly the spec's
column-major pure arithmetic at the source's geometry (8 rows, 12 columns,
capacity 96): `column = (i mod 96) div 8 + 1`, `row = (i mod 96) mod 8`
(row letter varying fastest), `plate = i div 96 + 1`, with no error
condition; after every 96 indices the plate number increments and indexing
restarts at column 1, row A. -/
theorem plate_assign_96_column_major (n i k : Nat) (h : i < n) :
    (plate_assign_96 n).length = n ∧
      (plate_assign_96 n).getD i default =
        { plate := (coordinateOf i 8 12).plate,
          row := row_labels_96.getD (coordinateOf i 8 12).rowIdx 'A',
          col := (coordinateOf i 8 12).col,
          well := String.mk [row_labels_96.getD (coordinateOf i 8 12).rowIdx 'A']
            ++ toString (coordinateOf i 8 12).col } ∧
      coordinateOf i 8 12 = ⟨i / 96 + 1, i % 96 % 8, i % 96 / 8 + 1⟩ ∧
      coordinateOf (k * 96) 8 12 = ⟨k + 1, 0, 1⟩ := by
  refine ⟨?_, ?_, ?_, coordinateOf_reset k⟩
  · exact plate_assign_96_go_length n 1 0
  · rw [plate_assign_96_getD n i h]
    rfl
  · rfl

/-- Witness for C3: index 96 starts plate 2 at column 1, row A. -/
theorem plate_assign_96_column_major_witness :
    (plate_assign_96 97).getD 96 default = ⟨2, 'A', 1, "A1"⟩ := by
  have h := (plate_assign_96_column_major 97 96 1 (by decide)).2.1
  rw [h]
  decide

/-- C4: the spec-modelled `indexOf` is an exact left inverse of
`coordinateOf` for every index and geometry, and for positive geometry
`coordinateOf` is a bijection onto plates, rows and columns: injective,
mapping `[0, k*capacity)` into plates `1..k`, landing inside the row/column
box, and hitting every coordinate of the box from an index below
`p*capacity`. -/
theorem wellIndexer_inverse_bijection (rows cols : Nat) (hr : 0 < rows)
    (hc : 0 < cols) :
    (∀ i, indexOf (coordinateOf i rows cols) rows cols = i) ∧
      Function.Injective (fun i => coordinateOf i rows cols) ∧
      (∀ k i, i < k * (rows * cols) → (coordinateOf i rows cols).plate ≤ k) ∧
      (∀ i, 1 ≤ (coordinateOf i rows cols).plate ∧
        (coordinateOf i rows cols).rowIdx < rows ∧
        1 ≤ (coordinateOf i rows cols).col ∧
        (coordinateOf i rows cols).col ≤ cols) ∧
      (∀ p r c, 1 ≤ p → r < rows → 1 ≤ c → c ≤ cols →
        coordinateOf (indexOf ⟨p, r, c⟩ rows cols) rows cols = ⟨p, r, c⟩ ∧
          indexOf ⟨p, r, c⟩ rows cols < p * (rows * cols)) :=
  ⟨indexOf_coordinateOf rows cols, coordinateOf_injective rows cols,
    fun k i hik => coordinateOf_plate_le rows cols k i hik,
    fun i => coordinateOf_mem_box rows cols i hr hc,
    fun p r c hp hrr hc1 hc2 =>
      coordinateOf_indexOf rows cols p r c hp hrr hc1 hc2⟩

/-- Witness for C4 at the 8-row, 12-column geometry and index 100. -/
theorem wellIndexer_inverse_bijection_witness :
    indexOf (coordinateOf 100 8 12) 8 12 = 100 :=
  (wellIndexer_inverse_bijection 8 12 (by decide) (by decide)).1 100

/-- C5 counterexample: when the amine CSV supplies no ID column, the
enumerator auto-generates `A_000000` for its first amine, while the merger
renders the analyzer's amine number 1 as `Amine_ID_001`; the two strings
differ, so the claimed equality with auto-generated IDs fails
(analogously `S_000000` versus `S_001` on the sulfonyl side). -/
theorem merger_ids_mismatch_counterexample :
    (load_reagents_csv false false "A_" [⟨some "CN", "", ""⟩]).map
        Reagent.rid = ["A_000000"] ∧
      amine_id 1 ≠ "A_000000" ∧
      (load_reagents_csv false false "S_" [⟨some "CS(=O)(=O)Cl", "", ""⟩]).map
        Reagent.rid = ["S_000000"] ∧
      s_id 1 ≠ "S_000000" :=
  ⟨by decide, by decide, by decide, by decide⟩

/-- C5 amended: the merger renders the analyzer's integers with the fixed
zero-padded conventions `S_`234 and `Amine_ID_` plus three zero-padded
digits; these equal the enumerator's reagent IDs when the input CSV supplies
an ID column (whose cells are used verbatim); but when the enumerator
auto-generates IDs it uses the distinct six-digit convention
`prefix + %06d` (prefixes `S_`/`A_`), and no amine-side rendering
`Amine_ID_xxx` ever equals an auto-generated `A_xxxxxx`, so auto-generated
rows cannot join. -/
theorem merger_id_rendering_amended (n i : Nat) (useName : Bool)
    (pref : String) (rows : List CsvRow) (r rauto : Reagent)
    (hmem : r ∈ load_reagents_csv true useName pref rows)
    (hauto : rauto ∈ load_reagents_csv false useName "A_" rows) :
    s_id n = "S_" ++ pad0 3 n ∧
      amine_id n = "Amine_ID_" ++ pad0 3 n ∧
      (∃ c ∈ rows, c.idCell = r.rid) ∧
      (∃ j, rauto.rid = "A_" ++ pad0 6 j) ∧
      amine_id n ≠ "A_" ++ pad0 6 i :=
  ⟨rfl, rfl, load_reagents_go_id useName pref rows 0 r hmem,
    load_reagents_go_auto useName "A_" rows 0 rauto hauto,
    amine_id_ne_auto n i⟩

/-- Witness for C5 amended: a one-row CSV with an ID column keeps the cell,
and without one the auto-generated ID never matches the merger's
rendering. -/
theorem merger_id_rendering_amended_witness :
    amine_id 1 ≠ "A_" ++ pad0 6 0 :=
  (merger_id_rendering_amended 1 0 false "P_"
    [⟨some "CN", "Amine_ID_001", "n1"⟩]
    ⟨"CN", "Amine_ID_001", "Amine_ID_001"⟩ ⟨"CN", "A_000000", "A_000000"⟩
    (by decide) (by decide)).2.2.2.2

/-- C6 counterexample: a destination-map row whose amine-number cell is
empty (as the analyzer emits for a well reached only by a sulfonyl-class
transfer) makes the merger's `astype(int)` normalization raise, so the merge
throws instead of reporting a completion status. -/
theorem merge_main_raises_counterexample :
    merge_main [⟨"A1", some 5, none, "A2", ""⟩] [] =
      .error "ValueError: cannot convert to int" := rfl

/-- C6 amended: for destination-map inputs whose reagent-number cells are
all integers, the merge never throws, and the exit status is 0 exactly when
the missing set is empty and 1 exactly when it is non-empty. -/
theorem merge_main_exit_status_amended (destRaw : List DestRowRaw)
    (prods : List ProdRow)
    (h : ∀ r ∈ destRaw, r.sulfCell.isSome ∧ r.amineCell.isSome) :
    ∃ dfm missing code,
      merge_main destRaw prods = .ok (dfm, missing, code) ∧
        (code = 0 ↔ missing.length = 0) ∧
        (code = 1 ↔ 0 < missing.length) := by
  obtain ⟨ds, hds⟩ := astypeAll_ok destRaw h
  refine ⟨leftMerge ds prods,
    (leftMerge ds prods).filter (fun m => m.smiles.isNone),
    if ((leftMerge ds prods).filter (fun m => m.smiles.isNone)).length = 0
      then 0 else 1, ?_, ?_, ?_⟩
  · simp [merge_main, hds]
  · by_cases hz :
      ((leftMerge ds prods).filter (fun m => m.smiles.isNone)).length = 0
    · simp [hz]
    · simp [hz]
  · by_cases hz :
      ((leftMerge ds prods).filter (fun m => m.smiles.isNone)).length = 0
    · simp [hz]
    · simp [hz]
      omega

/-- Witness for C6 amended: one well-typed destination row and no products:
the merge returns, with one missing row and exit status 1. -/
theorem merge_main_exit_status_amended_witness :
    ∃ dfm missing code,
      merge_main [⟨"A1", some 1, some 1, "A2", "B1"⟩] [] =
          .ok (dfm, missing, code) ∧
        (code = 0 ↔ missing.length = 0) ∧
        (code = 1 ↔ 0 < missing.length) :=
  merge_main_exit_status_amended [⟨"A1", some 1, some 1, "A2", "B1"⟩] []
    (by decide)

/-- C7 counterexample: when the product table holds two rows with the same
`(S_ID, Amine_ID)` key, the left join emits two output rows for the single
destination well, so a destination well does not appear exactly once. -/
theorem left_join_duplicate_keys_counterexample :
    (merge_main [⟨"A1", some 1, some 1, "A2", "B1"⟩]
        [⟨0, "S_001", "Amine_ID_001", "CS(=O)(=O)NC", "OK_REACTION"⟩,
         ⟨5, "S_001", "Amine_ID_001", "CCS(=O)(=O)NC", "OK_REACTION"⟩]).map
        (fun out => out.1.map MergedRow.well) =
      .ok ["A1", "A1"] := rfl

/-- C7 amended: the merge is a left join with the destination map as the
driving side; provided the product table's join keys are pairwise distinct,
every destination row appears in the output exactly once (the output wells
are exactly the destination wells in order), whether or not a match is
found; and the missing set is exactly the unmatched destination rows, with
their product fields left empty. -/
theorem left_join_driving_side_amended (dest : List DestRow)
    (prods : List ProdRow)
    (huniq : prods.Pairwise
      (fun p q => ¬(p.sid = q.sid ∧ p.amineId = q.amineId))) :
    (leftMerge dest prods).map MergedRow.well = dest.map DestRow.well ∧
      (leftMerge dest prods).filter (fun m => m.smiles.isNone) =
        (dest.filter
          (fun d => (prods.filter (prodMatches d)).isEmpty)).map unmatchedRow ∧
      ∀ d, (unmatchedRow d).productId = none ∧
        (unmatchedRow d).smiles = none ∧ (unmatchedRow d).status = none :=
  ⟨leftMerge_wells_uniq dest prods huniq, leftMerge_missing dest prods,
    fun _ => ⟨rfl, rfl, rfl⟩⟩

/-- Witness for C7 amended: one destination row and one matching product
row with unique keys; the output wells equal the destination wells. -/
theorem left_join_driving_side_amended_witness :
    (leftMerge [⟨"A1", 1, 1, "A2", "B1", "S_001", "Amine_ID_001"⟩]
        [⟨0, "S_001", "Amine_ID_001", "CS(=O)(=O)NC", "OK_REACTION"⟩]).map
        MergedRow.well =
      ([⟨"A1", 1, 1, "A2", "B1", "S_001", "Amine_ID_001"⟩] :
        List DestRow).map DestRow.well :=
  (left_join_driving_side_amended
    [⟨"A1", 1, 1, "A2", "B1", "S_001", "Amine_ID_001"⟩]
    [⟨0, "S_001", "Amine_ID_001", "CS(=O)(=O)NC", "OK_REACTION"⟩]
    (by decide)).1

/-- C8: a transfer whose source well has no recorded SourceLoad, or whose
SourceLoad's variable has no ReagentBinding, contributes nothing to the
destination map (the fold over the transfer list is unchanged by it, so its
destination wells receive no entry from it, and the fold is a total
function — no exception); and a variable all of whose `define_liquid`
display names match neither the Amine nor the SulfonylCl pattern receives no
ReagentBinding. -/
theorem analyzer_silent_exclusion (rv : List (String × RInfo))
    (sv : List (String × SrcInfo)) (ts1 ts2 : List Transfer) (t : Transfer)
    (stmts : List Stmt) (var : String)
    (hskip : dictGet? t.srcWell sv = none ∨
      ∃ si, dictGet? t.srcWell sv = some si ∧
        dictGet? si.liquidVar rv = none)
    (hnames : ∀ nm, Stmt.defineLiquid var (some nm) ∈ stmts →
      matchAmine nm = none ∧ matchSulf nm = none) :
    buildDestMapT rv sv (ts1 ++ t :: ts2) = buildDestMapT rv sv (ts1 ++ ts2) ∧
      dictGet? var (buildReagentVars stmts) = none :=
  ⟨buildDestMapT_skip rv sv ts1 ts2 t hskip,
    buildReagentVars_none stmts var hnames⟩

/-- Witness for C8: a transfer from an unloaded source well is dropped, and
a liquid named outside both patterns gets no binding. -/
theorem analyzer_silent_exclusion_witness :
    buildDestMapT [] [] ([] ++ (⟨"A2", ["A1"]⟩ : Transfer) :: []) =
        buildDestMapT [] [] ([] ++ []) ∧
      dictGet? "water"
        (buildReagentVars [Stmt.defineLiquid "water" (some "Water stock")]) =
        none :=
  analyzer_silent_exclusion [] [] [] [] ⟨"A2", ["A1"]⟩
    [Stmt.defineLiquid "water" (some "Water stock")] "water"
    (Or.inl rfl)
    (by
      intro nm hm
      rw [List.mem_singleton] at hm
      injection hm with h1 h2
      injection h2 with h3
      subst h3
      exact ⟨by decide, by decide⟩)

/-- C9 counterexample: a well receiving two sulfonyl-class transfers has its
sulfonyl fields silently overwritten by the later transfer; the final map
records only number 2 from source B2, with no flag of the inconsistency
(the entry carries no such field at all). -/
theorem same_class_overwrite_counterexample :
    buildDestMap
        [Stmt.defineLiquid "sulfonyl_1" (some "SulfonylCl 1"),
         Stmt.defineLiquid "sulfonyl_2" (some "SulfonylCl 2"),
         Stmt.loadLiquid "source_plate" "A2" (some "sulfonyl_1") (some 50),
         Stmt.loadLiquid "source_plate" "B2" (some "sulfonyl_2") (some 50),
         Stmt.transferCall "source_plate" "A2" (.lit [some "A1"]),
         Stmt.transferCall "source_plate" "B2" (.lit [some "A1"])] =
      [("A1", ⟨"A1", some 2, none, some "B2", none⟩)] := by decide

/-- C9 amended: the destination map holds exactly one entry per destination
well (keys are distinct and each entry records its own well); a well visited
by one sulfonyl-class and one amine-class transfer accumulates both field
sets on the same entry (each class's update leaves the other class's fields
unchanged); but a well receiving more than one transfer of the same class
has that class's fields silently overwritten by the later transfer — the
new values are installed regardless of the old ones, and no inconsistency
flag exists. -/
theorem dest_map_accumulation_amended (rv : List (String × RInfo))
    (sv : List (String × SrcInfo)) (ts : List Transfer) (ri : RInfo)
    (src : String) (dm : List (String × DestEntry)) (dw : String) :
    ((buildDestMapT rv sv ts).map Prod.fst).Nodup ∧
      (∀ kv ∈ buildDestMapT rv sv ts,
        (kv : String × DestEntry).2.well = kv.1) ∧
      dictGet? dw (applyWell ri src dm dw) =
        some (updateEntry ri src ((dictGet? dw dm).getD (blankEntry dw))) ∧
      (∀ e, ri.rclass = "sulfonyl" →
        (updateEntry ri src e).sulfNum = some ri.num ∧
        (updateEntry ri src e).sulfSrc = some src ∧
        (updateEntry ri src e).amineNum = e.amineNum ∧
        (updateEntry ri src e).amineSrc = e.amineSrc) ∧
      (∀ e, ri.rclass = "amine" →
        (updateEntry ri src e).amineNum = some ri.num ∧
        (updateEntry ri src e).amineSrc = some src ∧
        (updateEntry ri src e).sulfNum = e.sulfNum ∧
        (updateEntry ri src e).sulfSrc = e.sulfSrc) :=
  ⟨buildDestMapT_keys_nodup rv sv ts, buildDestMapT_wellField rv sv ts,
    dictGet?_applyWell_self ri src dm dw,
    fun e hs =>
      ⟨(updateEntry_sulfonyl ri src e hs).1,
        (updateEntry_sulfonyl ri src e hs).2.1,
        (updateEntry_sulfonyl ri src e hs).2.2.1,
        (updateEntry_sulfonyl ri src e hs).2.2.2.1⟩,
    fun e ha =>
      ⟨(updateEntry_amine ri src e ha).1, (updateEntry_amine ri src e ha).2.1,
        (updateEntry_amine ri src e ha).2.2.1,
        (updateEntry_amine ri src e ha).2.2.2.1⟩⟩

/-- Witness for C9 amended: a second sulfonyl update on an entry that
already carries sulfonyl number 1 installs number 2 and keeps the amine
fields. -/
theorem dest_map_accumulation_amended_witness :
    (updateEntry ⟨"sulfonyl", 2, "SulfonylCl 2"⟩ "B2"
        ⟨"A1", some 1, some 3, some "A2", some "C2"⟩).sulfNum = some 2 ∧
      (updateEntry ⟨"sulfonyl", 2, "SulfonylCl 2"⟩ "B2"
        ⟨"A1", some 1, some 3, some "A2", some "C2"⟩).amineNum = some 3 :=
  ⟨((dest_map_accumulation_amended [] [] [] ⟨"sulfonyl", 2, "SulfonylCl 2"⟩
      "B2" [] "A1").2.2.2.1 ⟨"A1", some 1, some 3, some "A2", some "C2"⟩
      rfl).1,
    ((dest_map_accumulation_amended [] [] [] ⟨"sulfonyl", 2, "SulfonylCl 2"⟩
      "B2" [] "A1").2.2.2.1 ⟨"A1", some 1, some 3, some "A2", some "C2"⟩
      rfl).2.2.1⟩

/-- C10: if any recognized transfer resolves to a destination well whose
label is empty, whose first character upcased is not a row letter A..H, or
whose remaining characters are not accepted by `int()`, the analyzer's
output stage raises while sorting instead of returning a destination map;
conversely, when every stored well label has a sort key, the output stage
returns the sorted rows. -/
theorem sort_key_total_only_on_plate_labels (stmts : List Stmt) (w : String)
    (hw : w ∈ (buildDestMap stmts).map Prod.fst)
    (hbad : w.data = [] ∨ ∃ c rest, w.data = c :: rest ∧
      (c.toUpper ∉ sortRowLetters ∨ pyInt? (String.mk rest) = none)) :
    parse_protocol_dest stmts = .error "ValueError" ∧
      ∀ stmts2 : List Stmt,
        (∀ kv ∈ buildDestMap stmts2,
          (well_sort_key? (kv : String × DestEntry).1).isSome) →
        ∃ rows, parse_protocol_dest stmts2 = .ok rows :=
  ⟨parse_protocol_dest_error stmts w hw (well_sort_key?_none_of_bad w hbad),
    fun stmts2 h2 => parse_protocol_dest_ok stmts2 h2⟩

/-- Witness for C10: a transfer resolving to the label `Z5` (row letter
outside A..H) makes the analyzer raise during the output sort. -/
theorem sort_key_total_only_on_plate_labels_witness :
    parse_protocol_dest
        [Stmt.defineLiquid "amine_1" (some "Amine 1"),
         Stmt.loadLiquid "source_plate" "A1" (some "amine_1") (some 50),
         Stmt.transferCall "source_plate" "A1" (.lit [some "Z5"])] =
      .error "ValueError" :=
  (sort_key_total_only_on_plate_labels
    [Stmt.defineLiquid "amine_1" (some "Amine 1"),
     Stmt.loadLiquid "source_plate" "A1" (some "amine_1") (some 50),
     Stmt.transferCall "source_plate" "A1" (.lit [some "Z5"])] "Z5"
    (by decide)
    (Or.inr ⟨'Z', ['5'], rfl, Or.inl (by decide)⟩)).1

end SulfEnum
